import Mathlib

/-!
Verification of `lucas_kanade.py`: pyramidal Lucas-Kanade optical flow.

The source operates on 2-D NumPy arrays of floating-point intensities.  We
embed images as rational-valued grids with explicit dimensions (idealizing
IEEE floats by exact arithmetic, the standard idealization for this kind of
numerical code).  Library calls made by the source (`scipy.signal.convolve2d`,
`cv2.resize`, `scipy.interpolate.griddata`) are embedded by their documented
mathematical semantics.
-/

/-- A 2-D image: `rows × cols` grid of rational intensities.  `data` is a
total function; only indices below `rows`/`cols` are meaningful. -/
structure Img where
  rows : ℕ
  cols : ℕ
  data : ℕ → ℕ → ℚ

instance : Inhabited Img := ⟨⟨0, 0, fun _ _ => 0⟩⟩

/-- All-zero image of the given shape (`np.zeros`). -/
def zerosImg (h w : ℕ) : Img := ⟨h, w, fun _ _ => 0⟩

/-- Symmetric (half-sample) boundary extension used by
`signal.convolve2d(..., boundary='symm')`: fold an arbitrary integer index
into `[0, n)` by reflection about the array edges. -/
def symIdx (n : ℕ) (i : ℤ) : ℕ :=
  if n = 0 then 0
  else
    let j := i.emod (2 * n)
    if j < n then j.toNat else (2 * n - 1 - j).toNat

/-- 1-D binomial weights `[1, 4, 6, 4, 1]` of the pyramid kernel. -/
def pyrW : ℕ → ℚ
  | 0 => 1
  | 1 => 4
  | 2 => 6
  | 3 => 4
  | 4 => 1
  | _ => 0

/-- `PYRAMID_FILTER`: the normalized 5×5 binomial kernel
`1/256 * [1,4,6,4,1] ⊗ [1,4,6,4,1]` from the head of the source file. -/
def PYRAMID_FILTER (i j : ℕ) : ℚ := (1 / 256) * (pyrW i * pyrW j)

/-- Row weights `[1, 2, 1]` of the x-derivative kernel. -/
def sobW : ℕ → ℚ
  | 0 => 1
  | 1 => 2
  | 2 => 1
  | _ => 0

/-- Column pattern `[1, 0, -1]` of the x-derivative kernel. -/
def sobS : ℕ → ℚ
  | 0 => 1
  | 1 => 0
  | 2 => -1
  | _ => 0

/-- `X_DERIVATIVE_FILTER = [[1,0,-1],[2,0,-2],[1,0,-1]]`. -/
def X_DERIVATIVE_FILTER (i j : ℕ) : ℚ := sobW i * sobS j

/-- `Y_DERIVATIVE_FILTER`: the transpose of `X_DERIVATIVE_FILTER`. -/
def Y_DERIVATIVE_FILTER (i j : ℕ) : ℚ := X_DERIVATIVE_FILTER j i

/-- `signal.convolve2d(I, K, boundary='symm', mode='same')` for a square
`kn × kn` kernel `K` (true convolution, kernel flipped): output has the
input's shape; the centered output index `r` reads full-convolution index
`r + kn/2`. -/
def conv2same (K : ℕ → ℕ → ℚ) (kn : ℕ) (I : Img) : Img :=
  ⟨I.rows, I.cols, fun r c =>
    ∑ i ∈ Finset.range kn, ∑ j ∈ Finset.range kn,
      K i j * I.data (symIdx I.rows ((r : ℤ) + (kn / 2 : ℕ) - i))
                     (symIdx I.cols ((c : ℤ) + (kn / 2 : ℕ) - j))⟩

/-- Decimation `a[::2, ::2]`: keep every second row and column starting at
index 0; the result of slicing an `h × w` array is `⌈h/2⌉ × ⌈w/2⌉`. -/
def decimate2 (I : Img) : Img :=
  ⟨(I.rows + 1) / 2, (I.cols + 1) / 2, fun r c => I.data (2 * r) (2 * c)⟩

/-- One pyramid construction step (body of the loop in `build_pyramid`):
blur with `PYRAMID_FILTER` (symmetric boundary, same-size output), then
decimate by 2 in each axis. -/
def pyrDown (I : Img) : Img := decimate2 (conv2same PYRAMID_FILTER 5 I)

/-- `k`-fold application of `pyrDown`: the `k`-th entry of the pyramid list
built by `build_pyramid` (level 0 is the image itself). -/
def pyramidLevel (image : Img) : ℕ → Img
  | 0 => image
  | k + 1 => pyrDown (pyramidLevel image k)

/-- `build_pyramid(image, num_levels)`: list starting with the original
image followed by `num_levels` successive blur+decimate results. -/
def build_pyramid (image : Img) (num_levels : ℕ) : List Img :=
  (List.range (num_levels + 1)).map (pyramidLevel image)

theorem build_pyramid_getD (image : Img) (num_levels k : ℕ) (h : k < num_levels + 1) :
    (build_pyramid image num_levels).getD k default = pyramidLevel image k := by
  unfold build_pyramid
  rw [List.getD_eq_getElem?_getD, List.getElem?_map, List.getElem?_range h]
  rfl

/-- Claim C2: `build_pyramid(image, num_levels)` returns a list of exactly
`num_levels + 1` images, level 0 equals the input image, and for every `k`,
level `k+1` has dimensions `⌈level_k.rows / 2⌉ × ⌈level_k.cols / 2⌉`. -/
theorem C2_pyramid_shape (image : Img) (num_levels : ℕ) :
    (build_pyramid image num_levels).length = num_levels + 1 ∧
    (build_pyramid image num_levels).getD 0 default = image ∧
    ∀ k, k < num_levels →
      ((build_pyramid image num_levels).getD (k + 1) default).rows =
        (((build_pyramid image num_levels).getD k default).rows + 1) / 2 ∧
      ((build_pyramid image num_levels).getD (k + 1) default).cols =
        (((build_pyramid image num_levels).getD k default).cols + 1) / 2 := by
  refine ⟨?_, ?_, ?_⟩
  · simp [build_pyramid]
  · exact build_pyramid_getD image num_levels 0 (Nat.succ_pos _)
  · intro k hk
    rw [build_pyramid_getD image num_levels (k + 1) (by omega),
        build_pyramid_getD image num_levels k (by omega)]
    exact ⟨rfl, rfl⟩

/-- Small concrete image used by the witnesses. -/
def imgW : Img := ⟨2, 2, fun r c => (r : ℚ) + c⟩

/-! ## Dense flow estimator: `lucas_kanade_step` (source lines 76–137) -/

/-- `Ix`: horizontal gradient of `I2`
(`signal.convolve2d(I2, X_DERIVATIVE_FILTER, boundary='symm', mode='same')`). -/
def lkIx (I2 : Img) : Img := conv2same X_DERIVATIVE_FILTER 3 I2

/-- `Iy`: vertical gradient of `I2`. -/
def lkIy (I2 : Img) : Img := conv2same Y_DERIVATIVE_FILTER 3 I2

/-- `It = I2 - I1` (elementwise temporal derivative; the arrays have the
same shape in every in-contract call). -/
def lkIt (I1 I2 : Img) : Img :=
  ⟨I1.rows, I1.cols, fun r c => I2.data r c - I1.data r c⟩

/-- Sum of `f` over the `(2b+1) × (2b+1)` window centered at `(r, c)`
(the flattened slice `[r-b : r+b+1, c-b : c+b+1]`). -/
def windowSum (f : ℕ → ℕ → ℚ) (r c b : ℕ) : ℚ :=
  ∑ i ∈ Finset.range (2 * b + 1), ∑ j ∈ Finset.range (2 * b + 1),
    f (r - b + i) (c - b + j)

/-- The per-pixel least-squares solve `x = -(AᵀA)⁻¹ Aᵀ b` with
`AᵀA = [[sxx, sxy], [sxy, syy]]` and `Aᵀb = (bx, b2)`.  `np.linalg.inv`
raises `LinAlgError` exactly on a singular matrix, and the source's
`except` clause then sets `x = (0, 0)`. -/
def lkSolve (sxx sxy syy bx b2 : ℚ) : ℚ × ℚ :=
  if sxx * syy - sxy * sxy = 0 then (0, 0)
  else (-((syy * bx - sxy * b2) / (sxx * syy - sxy * sxy)),
        -((sxx * b2 - sxy * bx) / (sxx * syy - sxy * sxy)))

/-- The solve of one pixel's window: `A`'s columns are the flattened `Ix`
and `Iy` windows, `b` the flattened `It` window; the `AᵀA` and `Aᵀb`
entries are window sums of products. -/
def lkAt (Ix Iy It : Img) (b r c : ℕ) : ℚ × ℚ :=
  lkSolve
    (windowSum (fun a a2 => Ix.data a a2 * Ix.data a a2) r c b)
    (windowSum (fun a a2 => Ix.data a a2 * Iy.data a a2) r c b)
    (windowSum (fun a a2 => Iy.data a a2 * Iy.data a a2) r c b)
    (windowSum (fun a a2 => Ix.data a a2 * It.data a a2) r c b)
    (windowSum (fun a a2 => Iy.data a a2 * It.data a a2) r c b)

/-- `lucas_kanade_step(I1, I2, window_size)`: `du`, `dv` start all-zero of
`I1`'s shape; the loop writes only pixels with
`boundary ≤ idx < shape - boundary` where `boundary = window_size // 2`,
each receiving its window's least-squares solution. -/
def lucas_kanade_step (I1 I2 : Img) (window_size : ℕ) : Img × Img :=
  (⟨I1.rows, I1.cols, fun r c =>
      if window_size / 2 ≤ r ∧ r + window_size / 2 < I1.rows ∧
         window_size / 2 ≤ c ∧ c + window_size / 2 < I1.cols then
        (lkAt (lkIx I2) (lkIy I2) (lkIt I1 I2) (window_size / 2) r c).1
      else 0⟩,
   ⟨I1.rows, I1.cols, fun r c =>
      if window_size / 2 ≤ r ∧ r + window_size / 2 < I1.rows ∧
         window_size / 2 ≤ c ∧ c + window_size / 2 < I1.cols then
        (lkAt (lkIx I2) (lkIy I2) (lkIt I1 I2) (window_size / 2) r c).2
      else 0⟩)

theorem lucas_kanade_step_fst_data (I1 I2 : Img) (window_size r c : ℕ) :
    (lucas_kanade_step I1 I2 window_size).1.data r c =
      if window_size / 2 ≤ r ∧ r + window_size / 2 < I1.rows ∧
         window_size / 2 ≤ c ∧ c + window_size / 2 < I1.cols then
        (lkAt (lkIx I2) (lkIy I2) (lkIt I1 I2) (window_size / 2) r c).1
      else 0 := rfl

theorem lucas_kanade_step_snd_data (I1 I2 : Img) (window_size r c : ℕ) :
    (lucas_kanade_step I1 I2 window_size).2.data r c =
      if window_size / 2 ≤ r ∧ r + window_size / 2 < I1.rows ∧
         window_size / 2 ≤ c ∧ c + window_size / 2 < I1.cols then
        (lkAt (lkIx I2) (lkIy I2) (lkIt I1 I2) (window_size / 2) r c).2
      else 0 := rfl

theorem lkSolve_zero_rhs (sxx sxy syy : ℚ) : lkSolve sxx sxy syy 0 0 = (0, 0) := by
  unfold lkSolve
  split
  · rfl
  · simp

/-- Claim C1: `lucas_kanade_step(I, I, window_size)` returns all-zero `du`
and `dv` of `I`'s shape: `It ≡ 0`, so every least-squares solve (singular
or not) yields `(0, 0)`, and border pixels stay at their zero
initialization. -/
theorem C1_zero_motion (I : Img) (window_size : ℕ) (hodd : Odd window_size) :
    (lucas_kanade_step I I window_size).1.rows = I.rows ∧
    (lucas_kanade_step I I window_size).1.cols = I.cols ∧
    (lucas_kanade_step I I window_size).2.rows = I.rows ∧
    (lucas_kanade_step I I window_size).2.cols = I.cols ∧
    ∀ r c, (lucas_kanade_step I I window_size).1.data r c = 0 ∧
           (lucas_kanade_step I I window_size).2.data r c = 0 := by
  refine ⟨rfl, rfl, rfl, rfl, ?_⟩
  intro r c
  have hIt : ∀ a a2, (lkIt I I).data a a2 = 0 := by
    intro a a2; simp [lkIt]
  have hAt : lkAt (lkIx I) (lkIy I) (lkIt I I) (window_size / 2) r c = (0, 0) := by
    unfold lkAt
    have hx : windowSum (fun a a2 => (lkIx I).data a a2 * (lkIt I I).data a a2)
        r c (window_size / 2) = 0 := by
      unfold windowSum
      refine Finset.sum_eq_zero fun i _ => Finset.sum_eq_zero fun j _ => ?_
      simp [hIt]
    have hy : windowSum (fun a a2 => (lkIy I).data a a2 * (lkIt I I).data a a2)
        r c (window_size / 2) = 0 := by
      unfold windowSum
      refine Finset.sum_eq_zero fun i _ => Finset.sum_eq_zero fun j _ => ?_
      simp [hIt]
    rw [hx, hy, lkSolve_zero_rhs]
  constructor
  · rw [lucas_kanade_step_fst_data, hAt]
    split <;> rfl
  · rw [lucas_kanade_step_snd_data, hAt]
    split <;> rfl

theorem C1_zero_motion_witness :
    Odd 3 ∧ (lucas_kanade_step imgW imgW 3).1.rows = imgW.rows ∧
    (∀ r c, (lucas_kanade_step imgW imgW 3).1.data r c = 0 ∧
            (lucas_kanade_step imgW imgW 3).2.data r c = 0) :=
  ⟨⟨1, by norm_num⟩, (C1_zero_motion imgW 3 ⟨1, by norm_num⟩).1,
   (C1_zero_motion imgW 3 ⟨1, by norm_num⟩).2.2.2.2⟩

/-- Claim C4: after `lucas_kanade_step`, every pixel within
`⌊window_size/2⌋` of any image edge (top, bottom, left or right) has
`du = dv = 0`: the loop writes only pixels whose full window fits inside
the image. -/
theorem C4_border_zero (I1 I2 : Img) (window_size : ℕ) (hodd : Odd window_size)
    (hr : I1.rows = I2.rows) (hc : I1.cols = I2.cols) (r c : ℕ)
    (hedge : r < window_size / 2 ∨ I1.rows ≤ r + window_size / 2 ∨
             c < window_size / 2 ∨ I1.cols ≤ c + window_size / 2) :
    (lucas_kanade_step I1 I2 window_size).1.data r c = 0 ∧
    (lucas_kanade_step I1 I2 window_size).2.data r c = 0 := by
  have hneg : ¬(window_size / 2 ≤ r ∧ r + window_size / 2 < I1.rows ∧
      window_size / 2 ≤ c ∧ c + window_size / 2 < I1.cols) := by
    rintro ⟨h1, h2, h3, h4⟩
    rcases hedge with h | h | h | h <;> omega
  constructor
  · rw [lucas_kanade_step_fst_data, if_neg hneg]
  · rw [lucas_kanade_step_snd_data, if_neg hneg]

/-- `Σ Ix²` over the window at `(r, c)`: the `(0,0)` entry of `AᵀA`. -/
def gXX (I2 : Img) (b r c : ℕ) : ℚ :=
  windowSum (fun a a2 => (lkIx I2).data a a2 * (lkIx I2).data a a2) r c b

/-- `Σ Ix·Iy` over the window: the off-diagonal entry of `AᵀA`. -/
def gXY (I2 : Img) (b r c : ℕ) : ℚ :=
  windowSum (fun a a2 => (lkIx I2).data a a2 * (lkIy I2).data a a2) r c b

/-- `Σ Iy²` over the window: the `(1,1)` entry of `AᵀA`. -/
def gYY (I2 : Img) (b r c : ℕ) : ℚ :=
  windowSum (fun a a2 => (lkIy I2).data a a2 * (lkIy I2).data a a2) r c b

/-- `Σ Ix·It` over the window: the first entry of `Aᵀb`. -/
def gXT (I1 I2 : Img) (b r c : ℕ) : ℚ :=
  windowSum (fun a a2 => (lkIx I2).data a a2 * (lkIt I1 I2).data a a2) r c b

/-- `Σ Iy·It` over the window: the second entry of `Aᵀb`. -/
def gYT (I1 I2 : Img) (b r c : ℕ) : ℚ :=
  windowSum (fun a a2 => (lkIy I2).data a a2 * (lkIt I1 I2).data a a2) r c b

theorem lkAt_eq_lkSolve (I1 I2 : Img) (b r c : ℕ) :
    lkAt (lkIx I2) (lkIy I2) (lkIt I1 I2) b r c =
      lkSolve (gXX I2 b r c) (gXY I2 b r c) (gYY I2 b r c)
        (gXT I1 I2 b r c) (gYT I1 I2 b r c) := rfl

/-! ## Sparse flow estimator: `faster_lucas_kanade_step` (source lines 387–443) -/

/-- All grid entries of an image, row-major (`ndarray` flattening). -/
def gridList (g : Img) : List ℚ :=
  (List.range g.rows).flatMap fun r => (List.range g.cols).map fun c => g.data r c

/-- `corners.max()`: maximum entry of a (nonempty) array. -/
def gridMax (g : Img) : ℚ :=
  match gridList g with
  | [] => 0
  | x :: xs => xs.foldl max x

/-- The corner-response map after `corners[corners < TH * corners.max()] = 0`
with `TH = 0.03`. -/
def thresholdedCorners (corners : Img) (r c : ℕ) : ℚ :=
  if corners.data r c < (3 / 100) * gridMax corners then 0 else corners.data r c

/-- `faster_lucas_kanade_step(I1, I2, window_size)`.  If both of `I1`'s
dimensions are below `MAX_SHAPE = 200`, it delegates to
`lucas_kanade_step`.  Otherwise it runs the same per-pixel least-squares
loop, restricted to interior pixels whose thresholded corner response is
nonzero.  The corner-response map (`cv2.cornerHarris(I2.astype(np.float32),
5, 5, 0.05)` in the source) is an external library computation and is
passed here as an explicit parameter, so all theorems below hold for every
possible response map. -/
def faster_lucas_kanade_step (I1 I2 : Img) (window_size : ℕ) (corners : Img) :
    Img × Img :=
  if I1.rows < 200 ∧ I1.cols < 200 then
    lucas_kanade_step I1 I2 window_size
  else
    (⟨I1.rows, I1.cols, fun r c =>
        if (window_size / 2 ≤ r ∧ r + window_size / 2 < I1.rows ∧
            window_size / 2 ≤ c ∧ c + window_size / 2 < I1.cols) ∧
           thresholdedCorners corners r c ≠ 0 then
          (lkAt (lkIx I2) (lkIy I2) (lkIt I1 I2) (window_size / 2) r c).1
        else 0⟩,
     ⟨I1.rows, I1.cols, fun r c =>
        if (window_size / 2 ≤ r ∧ r + window_size / 2 < I1.rows ∧
            window_size / 2 ≤ c ∧ c + window_size / 2 < I1.cols) ∧
           thresholdedCorners corners r c ≠ 0 then
          (lkAt (lkIx I2) (lkIy I2) (lkIt I1 I2) (window_size / 2) r c).2
        else 0⟩)

theorem faster_lucas_kanade_step_fst_data (I1 I2 : Img) (window_size : ℕ)
    (corners : Img) (hbig : ¬(I1.rows < 200 ∧ I1.cols < 200)) (r c : ℕ) :
    (faster_lucas_kanade_step I1 I2 window_size corners).1.data r c =
      if (window_size / 2 ≤ r ∧ r + window_size / 2 < I1.rows ∧
          window_size / 2 ≤ c ∧ c + window_size / 2 < I1.cols) ∧
         thresholdedCorners corners r c ≠ 0 then
        (lkAt (lkIx I2) (lkIy I2) (lkIt I1 I2) (window_size / 2) r c).1
      else 0 := by
  unfold faster_lucas_kanade_step
  rw [if_neg hbig]

theorem faster_lucas_kanade_step_snd_data (I1 I2 : Img) (window_size : ℕ)
    (corners : Img) (hbig : ¬(I1.rows < 200 ∧ I1.cols < 200)) (r c : ℕ) :
    (faster_lucas_kanade_step I1 I2 window_size corners).2.data r c =
      if (window_size / 2 ≤ r ∧ r + window_size / 2 < I1.rows ∧
          window_size / 2 ≤ c ∧ c + window_size / 2 < I1.cols) ∧
         thresholdedCorners corners r c ≠ 0 then
        (lkAt (lkIx I2) (lkIy I2) (lkIt I1 I2) (window_size / 2) r c).2
      else 0 := by
  unfold faster_lucas_kanade_step
  rw [if_neg hbig]

/-- Claim C5: at an interior pixel whose `AᵀA` is singular
(`det = gXX·gYY − gXY² = 0`), `lucas_kanade_step` does not fail: that
pixel's displacement is `(0, 0)` (the `except LinAlgError` branch), and the
same holds in the per-corner solve of `faster_lucas_kanade_step` for every
corner-response map; at a nonsingular pixel the displacement is the normal
least-squares value `-(AᵀA)⁻¹ Aᵀ b`. -/
theorem C5_singular_fallback (I1 I2 : Img) (window_size : ℕ)
    (hodd : Odd window_size) (r c : ℕ)
    (hin : window_size / 2 ≤ r ∧ r + window_size / 2 < I1.rows ∧
           window_size / 2 ≤ c ∧ c + window_size / 2 < I1.cols) :
    (gXX I2 (window_size / 2) r c * gYY I2 (window_size / 2) r c -
        gXY I2 (window_size / 2) r c * gXY I2 (window_size / 2) r c = 0 →
      (lucas_kanade_step I1 I2 window_size).1.data r c = 0 ∧
      (lucas_kanade_step I1 I2 window_size).2.data r c = 0 ∧
      ∀ corners : Img,
        (faster_lucas_kanade_step I1 I2 window_size corners).1.data r c = 0 ∧
        (faster_lucas_kanade_step I1 I2 window_size corners).2.data r c = 0) ∧
    (gXX I2 (window_size / 2) r c * gYY I2 (window_size / 2) r c -
        gXY I2 (window_size / 2) r c * gXY I2 (window_size / 2) r c ≠ 0 →
      (lucas_kanade_step I1 I2 window_size).1.data r c =
        -((gYY I2 (window_size / 2) r c * gXT I1 I2 (window_size / 2) r c -
            gXY I2 (window_size / 2) r c * gYT I1 I2 (window_size / 2) r c) /
          (gXX I2 (window_size / 2) r c * gYY I2 (window_size / 2) r c -
            gXY I2 (window_size / 2) r c * gXY I2 (window_size / 2) r c)) ∧
      (lucas_kanade_step I1 I2 window_size).2.data r c =
        -((gXX I2 (window_size / 2) r c * gYT I1 I2 (window_size / 2) r c -
            gXY I2 (window_size / 2) r c * gXT I1 I2 (window_size / 2) r c) /
          (gXX I2 (window_size / 2) r c * gYY I2 (window_size / 2) r c -
            gXY I2 (window_size / 2) r c * gXY I2 (window_size / 2) r c))) := by
  constructor
  · intro hdet
    have hAt : lkAt (lkIx I2) (lkIy I2) (lkIt I1 I2) (window_size / 2) r c = (0, 0) := by
      rw [lkAt_eq_lkSolve]
      unfold lkSolve
      rw [if_pos hdet]
    refine ⟨?_, ?_, ?_⟩
    · rw [lucas_kanade_step_fst_data, if_pos hin, hAt]
    · rw [lucas_kanade_step_snd_data, if_pos hin, hAt]
    · intro corners
      by_cases hsmall : I1.rows < 200 ∧ I1.cols < 200
      · unfold faster_lucas_kanade_step
        rw [if_pos hsmall]
        constructor
        · rw [lucas_kanade_step_fst_data, if_pos hin, hAt]
        · rw [lucas_kanade_step_snd_data, if_pos hin, hAt]
      · rw [faster_lucas_kanade_step_fst_data I1 I2 window_size corners hsmall,
            faster_lucas_kanade_step_snd_data I1 I2 window_size corners hsmall]
        constructor
        · split
          · rw [hAt]
          · rfl
        · split
          · rw [hAt]
          · rfl
  · intro hdet
    have hAt : lkAt (lkIx I2) (lkIy I2) (lkIt I1 I2) (window_size / 2) r c =
        (-((gYY I2 (window_size / 2) r c * gXT I1 I2 (window_size / 2) r c -
             gXY I2 (window_size / 2) r c * gYT I1 I2 (window_size / 2) r c) /
           (gXX I2 (window_size / 2) r c * gYY I2 (window_size / 2) r c -
             gXY I2 (window_size / 2) r c * gXY I2 (window_size / 2) r c)),
         -((gXX I2 (window_size / 2) r c * gYT I1 I2 (window_size / 2) r c -
             gXY I2 (window_size / 2) r c * gXT I1 I2 (window_size / 2) r c) /
           (gXX I2 (window_size / 2) r c * gYY I2 (window_size / 2) r c -
             gXY I2 (window_size / 2) r c * gXY I2 (window_size / 2) r c))) := by
      rw [lkAt_eq_lkSolve]
      unfold lkSolve
      rw [if_neg hdet]
    constructor
    · rw [lucas_kanade_step_fst_data, if_pos hin, hAt]
    · rw [lucas_kanade_step_snd_data, if_pos hin, hAt]

/-- Constant 3×3 image: its gradients vanish, so every window Gram matrix
is singular. -/
def imgC3 : Img := ⟨3, 3, fun _ _ => 5⟩

theorem C5_singular_fallback_witness :
    (lucas_kanade_step imgC3 imgC3 3).1.data 1 1 = 0 :=
  (((C5_singular_fallback imgC3 imgC3 3 ⟨1, by norm_num⟩ 1 1 (by decide)).1
    (by norm_num [gXX, gYY, gXY, windowSum, lkIx, lkIy, conv2same, imgC3,
      X_DERIVATIVE_FILTER, Y_DERIVATIVE_FILTER, sobW, sobS,
      Finset.sum_range_succ])).1)

/-! ## Image warper: `warp_image` (source lines 140–196) -/

/-- Clamp an integer index into `[0, n-1]` (border replication used by
bilinear sampling at array edges). -/
def clampIdx (n : ℕ) (i : ℤ) : ℕ := (min (max i 0) ((n : ℤ) - 1)).toNat

/-- Bilinear sample of `I` at real coordinates `(qy, qx)` (row, column):
floor to the surrounding cell, interpolate by the fractional parts,
clamping indices at the borders. -/
def bilinearAt (I : Img) (qy qx : ℚ) : ℚ :=
  (1 - (qy - (⌊qy⌋ : ℚ))) *
      ((1 - (qx - (⌊qx⌋ : ℚ))) * I.data (clampIdx I.rows ⌊qy⌋) (clampIdx I.cols ⌊qx⌋) +
       (qx - (⌊qx⌋ : ℚ)) * I.data (clampIdx I.rows ⌊qy⌋) (clampIdx I.cols (⌊qx⌋ + 1))) +
  (qy - (⌊qy⌋ : ℚ)) *
      ((1 - (qx - (⌊qx⌋ : ℚ))) * I.data (clampIdx I.rows (⌊qy⌋ + 1)) (clampIdx I.cols ⌊qx⌋) +
       (qx - (⌊qx⌋ : ℚ)) * I.data (clampIdx I.rows (⌊qy⌋ + 1)) (clampIdx I.cols (⌊qx⌋ + 1)))

/-- `cv2.resize(I, (dw, dh))` with the default bilinear interpolation:
output pixel `(r, c)` samples the source at
`((r + 1/2)·rows/dh − 1/2, (c + 1/2)·cols/dw − 1/2)`. -/
def resize (I : Img) (dh dw : ℕ) : Img :=
  ⟨dh, dw, fun r c =>
    bilinearAt I (((r : ℚ) + 1 / 2) * I.rows / dh - 1 / 2)
                 (((c : ℚ) + 1 / 2) * I.cols / dw - 1 / 2)⟩

theorem bilinearAt_natCast (I : Img) (r c : ℕ) (hr : r < I.rows) (hc : c < I.cols) :
    bilinearAt I r c = I.data r c := by
  have h1 : ⌊(r : ℚ)⌋ = (r : ℤ) := Int.floor_natCast r
  have h2 : ⌊(c : ℚ)⌋ = (c : ℤ) := Int.floor_natCast c
  have hclr : clampIdx I.rows ((r : ℕ) : ℤ) = r := by
    unfold clampIdx; omega
  have hclc : clampIdx I.cols ((c : ℕ) : ℤ) = c := by
    unfold clampIdx; omega
  unfold bilinearAt
  rw [h1, h2, hclr, hclc]
  push_cast
  ring

theorem resize_eq_self (I : Img) (r c : ℕ) (hr : r < I.rows) (hc : c < I.cols) :
    (resize I I.rows I.cols).data r c = I.data r c := by
  have hR : (I.rows : ℚ) ≠ 0 := Nat.cast_ne_zero.mpr (by omega)
  have hC : (I.cols : ℚ) ≠ 0 := Nat.cast_ne_zero.mpr (by omega)
  have hy : ((r : ℚ) + 1 / 2) * I.rows / I.rows - 1 / 2 = (r : ℚ) := by
    field_simp
    ring
  have hx : ((c : ℚ) + 1 / 2) * I.cols / I.cols - 1 / 2 = (c : ℚ) := by
    field_simp
    ring
  show bilinearAt I (((r : ℚ) + 1 / 2) * I.rows / I.rows - 1 / 2)
      (((c : ℚ) + 1 / 2) * I.cols / I.cols - 1 / 2) = I.data r c
  rw [hy, hx]
  exact bilinearAt_natCast I r c hr hc

/-- `scipy.interpolate.griddata` with `fill_value=np.nan`, over the regular
grid of all pixel centers of `image` (points `(col, row)`, values
`image[row, col]`), queried at `(qx, qy)`: `none` (NaN) outside the convex
hull `[0, cols-1] × [0, rows-1]` of the data points; inside the hull a
piecewise-linear interpolant that is exact at the data points (the claims
rely only on hull membership and on exactness at grid points, where every
piecewise-linear interpolant over the grid agrees). -/
def gridInterp (image : Img) (qx qy : ℚ) : Option ℚ :=
  if qx < 0 ∨ ((image.cols : ℚ) - 1) < qx ∨ qy < 0 ∨ ((image.rows : ℚ) - 1) < qy then
    none
  else some (bilinearAt image qy qx)

/-- Step 1 of `warp_image` for `u`: `cv2.resize(u, (image.cols, image.rows))`
then multiplication by `u_factor = image.shape[1] / u.shape[1]`. -/
def warpScaledU (image u : Img) : Img :=
  ⟨image.rows, image.cols, fun r c =>
    ((image.cols : ℚ) / u.cols) * (resize u image.rows image.cols).data r c⟩

/-- Step 1 of `warp_image` for `v`: resize then multiply by
`v_factor = image.shape[0] / v.shape[0]`. -/
def warpScaledV (image v : Img) : Img :=
  ⟨image.rows, image.cols, fun r c =>
    ((image.rows : ℚ) / v.rows) * (resize v image.rows image.cols).data r c⟩

/-- Step 2 of `warp_image`: the `griddata` output before NaN filling.  The
query point of output pixel `(r, c)` is
`(x_mesh + u, y_mesh + v) = (c + u'[r,c], r + v'[r,c])`. -/
def warpRaw (image u v : Img) (r c : ℕ) : Option ℚ :=
  gridInterp image ((c : ℚ) + (warpScaledU image u).data r c)
                   ((r : ℚ) + (warpScaledV image v).data r c)

/-- `warp_image(image, u, v)`: rescale the field, interpolate, then fill
every NaN hole with the source image value
(`image_warp[np.isnan(image_warp)] = image[np.isnan(image_warp)]`). -/
def warp_image (image u v : Img) : Img :=
  ⟨image.rows, image.cols, fun r c =>
    (warpRaw image u v r c).getD (image.data r c)⟩

/-- Claim C3: warping with all-zero displacement fields of the image's own
shape returns the image exactly: every query point coincides with a source
grid point, interpolation is exact there, and no NaN fill is needed. -/
theorem C3_warp_identity (image u v : Img)
    (hrow : 0 < image.rows) (hcol : 0 < image.cols)
    (hur : u.rows = image.rows) (huc : u.cols = image.cols)
    (hvr : v.rows = image.rows) (hvc : v.cols = image.cols)
    (hu0 : ∀ r, r < image.rows → ∀ c, c < image.cols → u.data r c = 0)
    (hv0 : ∀ r, r < image.rows → ∀ c, c < image.cols → v.data r c = 0) :
    (warp_image image u v).rows = image.rows ∧
    (warp_image image u v).cols = image.cols ∧
    ∀ r, r < image.rows → ∀ c, c < image.cols →
      (warp_image image u v).data r c = image.data r c := by
  refine ⟨rfl, rfl, ?_⟩
  intro r hr c hc
  have hresu : (resize u image.rows image.cols).data r c = 0 := by
    rw [← hur, ← huc, resize_eq_self u r c (hur ▸ hr) (huc ▸ hc)]
    exact hu0 r hr c hc
  have hresv : (resize v image.rows image.cols).data r c = 0 := by
    rw [← hvr, ← hvc, resize_eq_self v r c (hvr ▸ hr) (hvc ▸ hc)]
    exact hv0 r hr c hc
  have hsu : (warpScaledU image u).data r c = 0 := by
    show ((image.cols : ℚ) / u.cols) * (resize u image.rows image.cols).data r c = 0
    rw [hresu, mul_zero]
  have hsv : (warpScaledV image v).data r c = 0 := by
    show ((image.rows : ℚ) / v.rows) * (resize v image.rows image.cols).data r c = 0
    rw [hresv, mul_zero]
  have hguard : ¬((c : ℚ) < 0 ∨ ((image.cols : ℚ) - 1) < (c : ℚ) ∨
      (r : ℚ) < 0 ∨ ((image.rows : ℚ) - 1) < (r : ℚ)) := by
    push_neg
    refine ⟨Nat.cast_nonneg c, ?_, Nat.cast_nonneg r, ?_⟩
    · have : (c : ℚ) + 1 ≤ (image.cols : ℚ) := by exact_mod_cast hc
      linarith
    · have : (r : ℚ) + 1 ≤ (image.rows : ℚ) := by exact_mod_cast hr
      linarith
  have hraw : warpRaw image u v r c = some (image.data r c) := by
    unfold warpRaw
    rw [hsu, hsv, add_zero, add_zero]
    unfold gridInterp
    rw [if_neg hguard, bilinearAt_natCast image r c hr hc]
  show (warpRaw image u v r c).getD (image.data r c) = image.data r c
  rw [hraw]
  rfl

theorem C3_warp_identity_witness :
    (warp_image imgW (zerosImg 2 2) (zerosImg 2 2)).rows = imgW.rows ∧
    (warp_image imgW (zerosImg 2 2) (zerosImg 2 2)).cols = imgW.cols ∧
    ∀ r, r < imgW.rows → ∀ c, c < imgW.cols →
      (warp_image imgW (zerosImg 2 2) (zerosImg 2 2)).data r c = imgW.data r c :=
  C3_warp_identity imgW (zerosImg 2 2) (zerosImg 2 2)
    (by decide) (by decide) rfl rfl rfl rfl
    (fun _ _ _ _ => rfl) (fun _ _ _ _ => rfl)

/-- Claim C6: `warp_image` returns an array of exactly the image's shape
containing no NaN entry: a pixel is undefined in the raw `griddata` output
exactly when its query point lies outside the convex hull of the source
grid, and every such pixel is filled with the corresponding pixel of the
original input image; defined pixels keep their interpolated value. -/
theorem C6_warp_nan_fill (image u v : Img) :
    (warp_image image u v).rows = image.rows ∧
    (warp_image image u v).cols = image.cols ∧
    ∀ r c,
      (warpRaw image u v r c = none →
        (warp_image image u v).data r c = image.data r c) ∧
      (∀ q, warpRaw image u v r c = some q →
        (warp_image image u v).data r c = q) ∧
      (warpRaw image u v r c = none ↔
        ((c : ℚ) + (warpScaledU image u).data r c < 0 ∨
         ((image.cols : ℚ) - 1) < (c : ℚ) + (warpScaledU image u).data r c ∨
         (r : ℚ) + (warpScaledV image v).data r c < 0 ∨
         ((image.rows : ℚ) - 1) < (r : ℚ) + (warpScaledV image v).data r c)) := by
  refine ⟨rfl, rfl, ?_⟩
  intro r c
  refine ⟨?_, ?_, ?_⟩
  · intro h
    show (warpRaw image u v r c).getD (image.data r c) = image.data r c
    rw [h]
    rfl
  · intro q h
    show (warpRaw image u v r c).getD (image.data r c) = q
    rw [h]
    rfl
  · unfold warpRaw gridInterp
    split
    · rename_i hg
      simpa using hg
    · rename_i hng
      exact iff_of_false (by simp) hng

/-- Constant-valued displacement field used by the C6 witness: it pushes
every query point far outside the interpolation hull. -/
def imgBig : Img := ⟨2, 2, fun _ _ => 100⟩

theorem C6_warp_nan_fill_witness :
    (warp_image imgW imgBig imgBig).data 0 0 = imgW.data 0 0 := by
  have hnone : warpRaw imgW imgBig imgBig 0 0 = none := by
    refine ((C6_warp_nan_fill imgW imgBig imgBig).2.2 0 0).2.2.mpr ?_
    right; left
    have h100 : (warpScaledU imgW imgBig).data 0 0 = 100 := by
      show ((imgW.cols : ℚ) / imgBig.cols) *
          (resize imgBig imgBig.rows imgBig.cols).data 0 0 = 100
      rw [resize_eq_self imgBig 0 0 (by norm_num [imgBig]) (by norm_num [imgBig])]
      norm_num [imgW, imgBig]
    rw [h100]
    norm_num [imgW]
  exact ((C6_warp_nan_fill imgW imgBig imgBig).2.2 0 0).1 hnone

/-- Claim C7: inside `warp_image`, `u` is resized to the image's shape and
multiplied by `image.cols / u.cols`, and `v` is resized and multiplied by
`image.rows / v.rows`; for a field of shape `(h/2, w/2)` against an image
of shape `(h, w)` both factors equal 2, so the effective per-pixel
displacement doubles relative to the unscaled (resized) field. -/
theorem C7_rescale_doubling (image u v : Img) (m n : ℕ) (hm : 0 < m) (hn : 0 < n)
    (hir : image.rows = 2 * m) (hic : image.cols = 2 * n)
    (hur : u.rows = m) (huc : u.cols = n) (hvr : v.rows = m) (hvc : v.cols = n) :
    ∀ r c,
      ((warpScaledU image u).data r c =
        ((image.cols : ℚ) / u.cols) * (resize u image.rows image.cols).data r c) ∧
      ((warpScaledV image v).data r c =
        ((image.rows : ℚ) / v.rows) * (resize v image.rows image.cols).data r c) ∧
      ((warpScaledU image u).data r c =
        2 * (resize u image.rows image.cols).data r c) ∧
      ((warpScaledV image v).data r c =
        2 * (resize v image.rows image.cols).data r c) := by
  intro r c
  refine ⟨rfl, rfl, ?_, ?_⟩
  · show ((image.cols : ℚ) / u.cols) * (resize u image.rows image.cols).data r c =
        2 * (resize u image.rows image.cols).data r c
    rw [hic, huc]
    have hfac : (((2 * n : ℕ) : ℚ) / (n : ℕ)) = 2 := by
      have : (n : ℚ) ≠ 0 := Nat.cast_ne_zero.mpr (by omega)
      push_cast
      field_simp
    rw [hfac]
  · show ((image.rows : ℚ) / v.rows) * (resize v image.rows image.cols).data r c =
        2 * (resize v image.rows image.cols).data r c
    rw [hir, hvr]
    have hfac : (((2 * m : ℕ) : ℚ) / (m : ℕ)) = 2 := by
      have : (m : ℚ) ≠ 0 := Nat.cast_ne_zero.mpr (by omega)
      push_cast
      field_simp
    rw [hfac]

/-- 1×1 field used by the C7 witness. -/
def imgHalf : Img := ⟨1, 1, fun _ _ => 7⟩

theorem C7_rescale_doubling_witness :
    ((warpScaledU imgW imgHalf).data 0 1 =
      2 * (resize imgHalf imgW.rows imgW.cols).data 0 1) ∧
    ((warpScaledV imgW imgHalf).data 0 1 =
      2 * (resize imgHalf imgW.rows imgW.cols).data 0 1) :=
  ⟨(C7_rescale_doubling imgW imgHalf imgHalf 1 1 (by decide) (by decide)
      rfl rfl rfl rfl rfl rfl 0 1).2.2.1,
   (C7_rescale_doubling imgW imgHalf imgHalf 1 1 (by decide) (by decide)
      rfl rfl rfl rfl rfl rfl 0 1).2.2.2⟩

/-- Claim C9: when both of `I1`'s dimensions are below 200,
`faster_lucas_kanade_step` returns exactly `lucas_kanade_step`'s result;
otherwise it computes the identical per-pixel least-squares solution, but
only at interior pixels whose thresholded corner response is nonzero,
leaving every other pixel at zero displacement.  Stated for every possible
corner-response map (the map itself comes from `cv2.cornerHarris`). -/
theorem C9_faster_equivalence (I1 I2 : Img) (window_size : ℕ) (corners : Img) :
    (I1.rows < 200 ∧ I1.cols < 200 →
      faster_lucas_kanade_step I1 I2 window_size corners =
        lucas_kanade_step I1 I2 window_size) ∧
    (¬(I1.rows < 200 ∧ I1.cols < 200) →
      ∀ r c,
        (((window_size / 2 ≤ r ∧ r + window_size / 2 < I1.rows ∧
           window_size / 2 ≤ c ∧ c + window_size / 2 < I1.cols) ∧
          thresholdedCorners corners r c ≠ 0) →
          (faster_lucas_kanade_step I1 I2 window_size corners).1.data r c =
            (lucas_kanade_step I1 I2 window_size).1.data r c ∧
          (faster_lucas_kanade_step I1 I2 window_size corners).2.data r c =
            (lucas_kanade_step I1 I2 window_size).2.data r c) ∧
        (¬((window_size / 2 ≤ r ∧ r + window_size / 2 < I1.rows ∧
            window_size / 2 ≤ c ∧ c + window_size / 2 < I1.cols) ∧
           thresholdedCorners corners r c ≠ 0) →
          (faster_lucas_kanade_step I1 I2 window_size corners).1.data r c = 0 ∧
          (faster_lucas_kanade_step I1 I2 window_size corners).2.data r c = 0)) := by
  constructor
  · intro hsmall
    unfold faster_lucas_kanade_step
    rw [if_pos hsmall]
  · intro hbig r c
    constructor
    · intro hsel
      rw [faster_lucas_kanade_step_fst_data I1 I2 window_size corners hbig,
          faster_lucas_kanade_step_snd_data I1 I2 window_size corners hbig,
          lucas_kanade_step_fst_data, lucas_kanade_step_snd_data]
      simp only [if_pos hsel, if_pos hsel.1]
      exact ⟨trivial, trivial⟩
    · intro hoff
      rw [faster_lucas_kanade_step_fst_data I1 I2 window_size corners hbig,
          faster_lucas_kanade_step_snd_data I1 I2 window_size corners hbig]
      simp only [if_neg hoff]
      exact ⟨trivial, trivial⟩

theorem C9_faster_equivalence_witness :
    faster_lucas_kanade_step imgW imgW 3 imgW = lucas_kanade_step imgW imgW 3 :=
  (C9_faster_equivalence imgW imgW 3 imgW).1 (by decide)

theorem C4_border_zero_witness :
    Odd 3 ∧ (0 < 3 / 2 ∨ imgW.rows ≤ 0 + 3 / 2 ∨ 0 < 3 / 2 ∨ imgW.cols ≤ 0 + 3 / 2) ∧
    (lucas_kanade_step imgW imgW 3).1.data 0 0 = 0 ∧
    (lucas_kanade_step imgW imgW 3).2.data 0 0 = 0 :=
  ⟨⟨1, by norm_num⟩, by decide,
   C4_border_zero imgW imgW 3 ⟨1, by norm_num⟩ rfl rfl 0 0 (by decide)⟩

theorem C2_pyramid_shape_witness :
    0 < 1 ∧
    ((build_pyramid imgW 1).getD 1 default).rows =
      (((build_pyramid imgW 1).getD 0 default).rows + 1) / 2 ∧
    ((build_pyramid imgW 1).getD 1 default).cols =
      (((build_pyramid imgW 1).getD 0 default).cols + 1) / 2 :=
  ⟨by decide, (C2_pyramid_shape imgW 1).2.2 0 (by decide)⟩

/-! ## Pyramidal refiner: `lucas_kanade_optical_flow` (source lines 199–267) -/

/-- Elementwise array addition (`u = u + du`; the operands have equal
shapes at every call site inside the refiner). -/
def addImg (a b : Img) : Img :=
  ⟨a.rows, a.cols, fun r c => a.data r c + b.data r c⟩

/-- One refinement iteration at a fixed pyramid level: warp the level's
target image by the accumulated field, run `lucas_kanade_step` against the
level's reference image, and accumulate the correction.  (The source keeps
`cur_I2 = warp_image(pyramid_I2[level], u, v)` in sync with `(u, v)` before
and after every iteration, so the loop body is exactly this map.) -/
def lkIter (I1L I2L : Img) (window_size : ℕ) (uv : Img × Img) : Img × Img :=
  (addImg uv.1 (lucas_kanade_step I1L (warp_image I2L uv.1 uv.2) window_size).1,
   addImg uv.2 (lucas_kanade_step I1L (warp_image I2L uv.1 uv.2) window_size).2)

/-- The per-level loop of the refiner, from pyramid level `l` down to
level 0: at each level run `max_iter` iterations, and on every transition
to a finer level resize the field to the next level's dimensions and
multiply it by 2. -/
def lkLevels (pyr1 pyr2 : ℕ → Img) (window_size max_iter : ℕ) :
    ℕ → Img × Img → Img × Img
  | 0, uv => (lkIter (pyr1 0) (pyr2 0) window_size)^[max_iter] uv
  | l + 1, uv =>
    let uv2 := (lkIter (pyr1 (l + 1)) (pyr2 (l + 1)) window_size)^[max_iter] uv
    lkLevels pyr1 pyr2 window_size max_iter l
      (⟨(pyr1 l).rows, (pyr1 l).cols, fun r c =>
          2 * (resize uv2.1 (pyr1 l).rows (pyr1 l).cols).data r c⟩,
       ⟨(pyr1 l).rows, (pyr1 l).cols, fun r c =>
          2 * (resize uv2.2 (pyr1 l).rows (pyr1 l).cols).data r c⟩)

/-- `IMAGE_SIZE[0] = w_factor * 2^num_levels` with
`w_factor = ceil(I1.cols / 2^num_levels)` (the source writes the exponent
as `num_levels - 1 + 1`, which over Python integers equals `num_levels`). -/
def lkImageSizeW (I1 : Img) (num_levels : ℕ) : ℕ :=
  ((I1.cols + 2 ^ num_levels - 1) / 2 ^ num_levels) * 2 ^ num_levels

/-- `IMAGE_SIZE[1] = h_factor * 2^num_levels` with
`h_factor = ceil(I1.rows / 2^num_levels)`. -/
def lkImageSizeH (I1 : Img) (num_levels : ℕ) : ℕ :=
  ((I1.rows + 2 ^ num_levels - 1) / 2 ^ num_levels) * 2 ^ num_levels

/-- `if J.shape != IMAGE_SIZE: J = cv2.resize(J, IMAGE_SIZE)`.  The source
compares the `(rows, cols)` shape tuple against the `(width, height)`
`IMAGE_SIZE` tuple directly, so the skip branch requires `rows = W` and
`cols = H`; `cv2.resize(J, (W, H))` produces an `H × W` array. -/
def lkResize (J : Img) (W H : ℕ) : Img :=
  if J.rows = W ∧ J.cols = H then J else resize J H W

/-- `lucas_kanade_optical_flow(I1, I2, window_size, max_iter, num_levels)`:
resize both inputs to `IMAGE_SIZE` (computed from `I1`), build both
pyramids, initialize `(u, v)` to zeros of the coarsest level of `I2`'s
pyramid, and run the per-level refinement loop from the coarsest level
down to level 0. -/
def lucas_kanade_optical_flow (I1 I2 : Img)
    (window_size max_iter num_levels : ℕ) : Img × Img :=
  lkLevels
    (pyramidLevel (lkResize I1 (lkImageSizeW I1 num_levels) (lkImageSizeH I1 num_levels)))
    (pyramidLevel (lkResize I2 (lkImageSizeW I1 num_levels) (lkImageSizeH I1 num_levels)))
    window_size max_iter num_levels
    (zerosImg
      (pyramidLevel (lkResize I2 (lkImageSizeW I1 num_levels) (lkImageSizeH I1 num_levels))
        num_levels).rows
      (pyramidLevel (lkResize I2 (lkImageSizeW I1 num_levels) (lkImageSizeH I1 num_levels))
        num_levels).cols,
     zerosImg
      (pyramidLevel (lkResize I2 (lkImageSizeW I1 num_levels) (lkImageSizeH I1 num_levels))
        num_levels).rows
      (pyramidLevel (lkResize I2 (lkImageSizeW I1 num_levels) (lkImageSizeH I1 num_levels))
        num_levels).cols)

theorem lkIter_shape (I1L I2L : Img) (window_size : ℕ) (uv : Img × Img) :
    (lkIter I1L I2L window_size uv).1.rows = uv.1.rows ∧
    (lkIter I1L I2L window_size uv).1.cols = uv.1.cols ∧
    (lkIter I1L I2L window_size uv).2.rows = uv.2.rows ∧
    (lkIter I1L I2L window_size uv).2.cols = uv.2.cols :=
  ⟨rfl, rfl, rfl, rfl⟩

theorem lkIter_iterate_shape (I1L I2L : Img) (window_size k : ℕ) (uv : Img × Img) :
    ((lkIter I1L I2L window_size)^[k] uv).1.rows = uv.1.rows ∧
    ((lkIter I1L I2L window_size)^[k] uv).1.cols = uv.1.cols ∧
    ((lkIter I1L I2L window_size)^[k] uv).2.rows = uv.2.rows ∧
    ((lkIter I1L I2L window_size)^[k] uv).2.cols = uv.2.cols := by
  induction k with
  | zero => exact ⟨rfl, rfl, rfl, rfl⟩
  | succ n ih =>
    rw [Function.iterate_succ_apply']
    exact ⟨ih.1, ih.2.1, ih.2.2.1, ih.2.2.2⟩

theorem lkLevels_shape (pyr1 pyr2 : ℕ → Img) (window_size max_iter : ℕ)
    (l : ℕ) (uv : Img × Img) :
    ((lkLevels pyr1 pyr2 window_size max_iter (l + 1) uv).1.rows = (pyr1 0).rows ∧
     (lkLevels pyr1 pyr2 window_size max_iter (l + 1) uv).1.cols = (pyr1 0).cols) ∧
    ((lkLevels pyr1 pyr2 window_size max_iter (l + 1) uv).2.rows = (pyr1 0).rows ∧
     (lkLevels pyr1 pyr2 window_size max_iter (l + 1) uv).2.cols = (pyr1 0).cols) := by
  induction l generalizing uv with
  | zero =>
    exact ⟨⟨(lkIter_iterate_shape _ _ _ _ _).1, (lkIter_iterate_shape _ _ _ _ _).2.1⟩,
           (lkIter_iterate_shape _ _ _ _ _).2.2.1, (lkIter_iterate_shape _ _ _ _ _).2.2.2⟩
  | succ n ih =>
    unfold lkLevels
    exact ih _

theorem le_ceil_mul (a p : ℕ) (hp : 0 < p) : a ≤ ((a + p - 1) / p) * p := by
  rcases Nat.eq_zero_or_pos a with rfl | ha
  · simp
  · have hq : (a + p - 1) / p = (a - 1) / p + 1 := by
      have h : a + p - 1 = (a - 1) + p := by omega
      rw [h, Nat.add_div_right _ hp]
    rw [hq]
    have h1 : p * ((a - 1) / p) + (a - 1) % p = a - 1 := Nat.div_add_mod (a - 1) p
    have h2 : (a - 1) % p < p := Nat.mod_lt _ hp
    calc a = p * ((a - 1) / p) + (a - 1) % p + 1 := by omega
      _ ≤ p * ((a - 1) / p) + p := by omega
      _ = ((a - 1) / p + 1) * p := by ring

theorem lkResize_I1_shape (I1 : Img) (num_levels : ℕ) :
    (lkResize I1 (lkImageSizeW I1 num_levels) (lkImageSizeH I1 num_levels)).rows =
      lkImageSizeH I1 num_levels ∧
    (lkResize I1 (lkImageSizeW I1 num_levels) (lkImageSizeH I1 num_levels)).cols =
      lkImageSizeW I1 num_levels := by
  have hp : 0 < 2 ^ num_levels := Nat.pos_pow_of_pos num_levels (by norm_num)
  have hle1 : I1.rows ≤ lkImageSizeH I1 num_levels := le_ceil_mul I1.rows _ hp
  have hle2 : I1.cols ≤ lkImageSizeW I1 num_levels := le_ceil_mul I1.cols _ hp
  unfold lkResize
  split
  · rename_i h
    constructor
    · omega
    · omega
  · exact ⟨rfl, rfl⟩

theorem lkResize_I2_dvd (I1 I2 : Img) (num_levels : ℕ) :
    2 ^ num_levels ∣
      (lkResize I2 (lkImageSizeW I1 num_levels) (lkImageSizeH I1 num_levels)).rows ∧
    2 ^ num_levels ∣
      (lkResize I2 (lkImageSizeW I1 num_levels) (lkImageSizeH I1 num_levels)).cols := by
  unfold lkResize
  split
  · rename_i h
    rw [h.1, h.2]
    exact ⟨dvd_mul_left _ _, dvd_mul_left _ _⟩
  · exact ⟨dvd_mul_left _ _, dvd_mul_left _ _⟩

/-- Claim C8: for `num_levels ≥ 1`, the pyramidal refiner first resizes
both inputs to dimensions that are exact integer multiples of
`2^num_levels` (`I1` to `lkImageSizeH × lkImageSizeW`), and the returned
`(u, v)` both have exactly that resized full-resolution shape. -/
theorem C8_refiner_shape (I1 I2 : Img) (window_size max_iter num_levels : ℕ)
    (hL : 1 ≤ num_levels) :
    ((lkResize I1 (lkImageSizeW I1 num_levels) (lkImageSizeH I1 num_levels)).rows =
       lkImageSizeH I1 num_levels ∧
     (lkResize I1 (lkImageSizeW I1 num_levels) (lkImageSizeH I1 num_levels)).cols =
       lkImageSizeW I1 num_levels ∧
     2 ^ num_levels ∣
       (lkResize I2 (lkImageSizeW I1 num_levels) (lkImageSizeH I1 num_levels)).rows ∧
     2 ^ num_levels ∣
       (lkResize I2 (lkImageSizeW I1 num_levels) (lkImageSizeH I1 num_levels)).cols) ∧
    ((lucas_kanade_optical_flow I1 I2 window_size max_iter num_levels).1.rows =
       lkImageSizeH I1 num_levels ∧
     (lucas_kanade_optical_flow I1 I2 window_size max_iter num_levels).1.cols =
       lkImageSizeW I1 num_levels ∧
     (lucas_kanade_optical_flow I1 I2 window_size max_iter num_levels).2.rows =
       lkImageSizeH I1 num_levels ∧
     (lucas_kanade_optical_flow I1 I2 window_size max_iter num_levels).2.cols =
       lkImageSizeW I1 num_levels) ∧
    (2 ^ num_levels ∣
       (lucas_kanade_optical_flow I1 I2 window_size max_iter num_levels).1.rows ∧
     2 ^ num_levels ∣
       (lucas_kanade_optical_flow I1 I2 window_size max_iter num_levels).1.cols ∧
     2 ^ num_levels ∣
       (lucas_kanade_optical_flow I1 I2 window_size max_iter num_levels).2.rows ∧
     2 ^ num_levels ∣
       (lucas_kanade_optical_flow I1 I2 window_size max_iter num_levels).2.cols) := by
  obtain ⟨l, rfl⟩ : ∃ l, num_levels = l + 1 := ⟨num_levels - 1, by omega⟩
  have hshape :
      (lucas_kanade_optical_flow I1 I2 window_size max_iter (l + 1)).1.rows =
        lkImageSizeH I1 (l + 1) ∧
      (lucas_kanade_optical_flow I1 I2 window_size max_iter (l + 1)).1.cols =
        lkImageSizeW I1 (l + 1) ∧
      (lucas_kanade_optical_flow I1 I2 window_size max_iter (l + 1)).2.rows =
        lkImageSizeH I1 (l + 1) ∧
      (lucas_kanade_optical_flow I1 I2 window_size max_iter (l + 1)).2.cols =
        lkImageSizeW I1 (l + 1) := by
    have hlev := lkLevels_shape
      (pyramidLevel (lkResize I1 (lkImageSizeW I1 (l + 1)) (lkImageSizeH I1 (l + 1))))
      (pyramidLevel (lkResize I2 (lkImageSizeW I1 (l + 1)) (lkImageSizeH I1 (l + 1))))
      window_size max_iter l
      (zerosImg
        (pyramidLevel (lkResize I2 (lkImageSizeW I1 (l + 1)) (lkImageSizeH I1 (l + 1)))
          (l + 1)).rows
        (pyramidLevel (lkResize I2 (lkImageSizeW I1 (l + 1)) (lkImageSizeH I1 (l + 1)))
          (l + 1)).cols,
       zerosImg
        (pyramidLevel (lkResize I2 (lkImageSizeW I1 (l + 1)) (lkImageSizeH I1 (l + 1)))
          (l + 1)).rows
        (pyramidLevel (lkResize I2 (lkImageSizeW I1 (l + 1)) (lkImageSizeH I1 (l + 1)))
          (l + 1)).cols)
    have hI1 := lkResize_I1_shape I1 (l + 1)
    exact ⟨hlev.1.1.trans hI1.1, hlev.1.2.trans hI1.2,
           hlev.2.1.trans hI1.1, hlev.2.2.trans hI1.2⟩
  refine ⟨⟨(lkResize_I1_shape I1 (l + 1)).1, (lkResize_I1_shape I1 (l + 1)).2,
           (lkResize_I2_dvd I1 I2 (l + 1)).1, (lkResize_I2_dvd I1 I2 (l + 1)).2⟩,
         hshape, ?_⟩
  rw [hshape.1, hshape.2.1, hshape.2.2.1, hshape.2.2.2]
  exact ⟨dvd_mul_left _ _, dvd_mul_left _ _, dvd_mul_left _ _, dvd_mul_left _ _⟩

theorem C8_refiner_shape_witness :
    (lucas_kanade_optical_flow imgW imgW 1 0 1).1.rows = lkImageSizeH imgW 1 ∧
    (lucas_kanade_optical_flow imgW imgW 1 0 1).1.cols = lkImageSizeW imgW 1 ∧
    (lucas_kanade_optical_flow imgW imgW 1 0 1).2.rows = lkImageSizeH imgW 1 ∧
    (lucas_kanade_optical_flow imgW imgW 1 0 1).2.cols = lkImageSizeW imgW 1 :=
  (C8_refiner_shape imgW imgW 1 0 1 (by decide)).2.1

/-! ## Shape-mismatch behavior of `lucas_kanade_step` (claim C10)

The source performs no explicit shape validation.  With `I1.shape ≠
I2.shape`, the line `It = I2 - I1` broadcasts the operands under NumPy's
rules (raising `ValueError` exactly when some axis pair differs with
neither equal to 1), and a window slice of `Ix`/`Iy` that is clipped by
`I2`'s extent later raises a reshape `ValueError`.  `lucas_kanade_step_run`
models the call with these two raise points made explicit. -/

/-- Broadcast index: an axis of extent 1 is repeated
(`It[r] = I2[0]` when `I2` has a single row). -/
def bIdx (n i : ℕ) : ℕ := if n = 1 then 0 else i

/-- `It = I2 - I1` after NumPy broadcasting (defined when the shapes are
broadcast-compatible; the result extent of each axis is the max). -/
def lkItB (I1 I2 : Img) : Img :=
  ⟨max I1.rows I2.rows, max I1.cols I2.cols, fun r c =>
    I2.data (bIdx I2.rows r) (bIdx I2.cols c) -
      I1.data (bIdx I1.rows r) (bIdx I1.cols c)⟩

/-- `true` iff some loop pixel's `Ix`/`Iy` window slice is clipped by
`I2`'s extent, which makes `.reshape(window_size**2)` raise. -/
def clipErr (I1 I2 : Img) (b : ℕ) : Bool :=
  (List.range I1.rows).any fun r =>
    (List.range I1.cols).any fun c =>
      decide (b ≤ r) && decide (r + b < I1.rows) &&
      decide (b ≤ c) && decide (c + b < I1.cols) &&
      (decide (I2.rows ≤ r + b) || decide (I2.cols ≤ c + b))

/-- The value `lucas_kanade_step` returns when no exception fires:
the same per-pixel loop as `lucas_kanade_step`, reading the broadcast
`It`. -/
def lkBroadcastVal (I1 I2 : Img) (window_size : ℕ) : Img × Img :=
  (⟨I1.rows, I1.cols, fun r c =>
      if window_size / 2 ≤ r ∧ r + window_size / 2 < I1.rows ∧
         window_size / 2 ≤ c ∧ c + window_size / 2 < I1.cols then
        (lkAt (lkIx I2) (lkIy I2) (lkItB I1 I2) (window_size / 2) r c).1
      else 0⟩,
   ⟨I1.rows, I1.cols, fun r c =>
      if window_size / 2 ≤ r ∧ r + window_size / 2 < I1.rows ∧
         window_size / 2 ≤ c ∧ c + window_size / 2 < I1.cols then
        (lkAt (lkIx I2) (lkIy I2) (lkItB I1 I2) (window_size / 2) r c).2
      else 0⟩)

/-- A `lucas_kanade_step(I1, I2, window_size)` call with its two possible
NumPy exceptions modeled as `Except.error`: the broadcast check of
`It = I2 - I1`, then the reshape check of the window slices.  (The `It`
window slices themselves never clip: the loop bounds keep `r + b` below
`I1.rows ≤ It.rows` and likewise for columns.) -/
def lucas_kanade_step_run (I1 I2 : Img) (window_size : ℕ) :
    Except Unit (Img × Img) :=
  if (I1.rows = I2.rows ∨ I1.rows = 1 ∨ I2.rows = 1) ∧
     (I1.cols = I2.cols ∨ I1.cols = 1 ∨ I2.cols = 1) then
    if clipErr I1 I2 (window_size / 2) then .error ()
    else .ok (lkBroadcastVal I1 I2 window_size)
  else .error ()

/-- `true` on `.ok` results (the call returned normally). -/
def exceptOk : Except Unit (Img × Img) → Bool
  | .ok _ => true
  | .error _ => false

/-- 2×2 all-zero image (counterexample input `I1`). -/
def imgA2 : Img := ⟨2, 2, fun _ _ => 0⟩

/-- 1×2 all-zero image (counterexample input `I2`): its shape differs from
`imgA2`'s but is NumPy-broadcastable against it. -/
def imgB1 : Img := ⟨1, 2, fun _ _ => 0⟩

/-- 2×3 all-zero image (witness input for the non-broadcastable case). -/
def imgA23 : Img := ⟨2, 3, fun _ _ => 0⟩

/-- 3×2 all-zero image (witness input for the non-broadcastable case). -/
def imgB32 : Img := ⟨3, 2, fun _ _ => 0⟩

/-- Claim C10 is falsified by the code: `imgA2` (2×2) and `imgB1` (1×2)
have different shapes, yet `lucas_kanade_step` is not rejected — `It`
broadcasts, the interior loop is empty, and the call returns normally. -/
theorem C10_counterexample :
    ¬(imgA2.rows = imgB1.rows ∧ imgA2.cols = imgB1.cols) ∧
    exceptOk (lucas_kanade_step_run imgA2 imgB1 3) = true := by
  constructor
  · decide
  · rfl

/-- Claim C10 amended: `lucas_kanade_step` performs no shape check; with
`I1.shape ≠ I2.shape` the call is rejected (raises) only when the shapes
are not NumPy-broadcastable in `It = I2 - I1`, or when some interior
window slice is clipped by `I2`'s extent (reshape error); otherwise it
proceeds by silently broadcasting and returns normally. -/
theorem C10_amended_no_shape_check (I1 I2 : Img) (window_size : ℕ) :
    (¬((I1.rows = I2.rows ∨ I1.rows = 1 ∨ I2.rows = 1) ∧
       (I1.cols = I2.cols ∨ I1.cols = 1 ∨ I2.cols = 1)) →
      lucas_kanade_step_run I1 I2 window_size = .error ()) ∧
    (((I1.rows = I2.rows ∨ I1.rows = 1 ∨ I2.rows = 1) ∧
      (I1.cols = I2.cols ∨ I1.cols = 1 ∨ I2.cols = 1)) →
     clipErr I1 I2 (window_size / 2) = false →
      lucas_kanade_step_run I1 I2 window_size =
        .ok (lkBroadcastVal I1 I2 window_size)) := by
  constructor
  · intro h
    unfold lucas_kanade_step_run
    rw [if_neg h]
  · intro h hclip
    unfold lucas_kanade_step_run
    rw [if_pos h, hclip]
    rfl

theorem C10_amended_no_shape_check_witness :
    lucas_kanade_step_run imgA23 imgB32 3 = .error () ∧
    lucas_kanade_step_run imgA2 imgB1 3 = .ok (lkBroadcastVal imgA2 imgB1 3) :=
  ⟨(C10_amended_no_shape_check imgA23 imgB32 3).1 (by decide),
   (C10_amended_no_shape_check imgA2 imgB1 3).2 (by decide) (by decide)⟩
